import Mathlib

/-!
# Verification of the doctor requirement-parsing and constraint-satisfaction engine

Shallow embedding of the core of `src/doctor.ts`: the requirement parser
(`parseStringRequirement`) and the constraint evaluator (`satisfiesRequirement`)
of class `EnvChecker`, together with a model of the parts of the external
`semver` library the engine calls (`semver.clean`, `semver.satisfies`), which
are modelled from the specification since the library source is not part of
the repository.

Strings are handled at the character-list level so that every definition is
executable and kernel-reducible.  JavaScript whitespace and line-terminator
character classes are embedded explicitly.
-/

namespace Doctor

/-- A parsed prerelease identifier: numeric identifiers compare numerically,
alphanumeric identifiers compare lexically (ASCII), per semver precedence. -/
inductive PrereleaseId where
| num (n : Nat)
| alph (s : String)
deriving DecidableEq, Repr

/-- Modelled from the spec: the canonical comparable form of a semantic
version after cleaning — major, minor, patch numerals plus an optional list
of prerelease identifiers (build metadata is validated but dropped). -/
structure Version where
major : Nat
minor : Nat
patch : Nat
prerelease : List PrereleaseId
deriving DecidableEq, Repr

/-- The JavaScript whitespace class used by `String.prototype.trim` and the
regex class `\s`: tab, LF, VT, FF, CR, space, NBSP, and the Unicode space
separators and line separators. -/
def isJsWs (c : Char) : Bool :=
c.toNat = 9 || c.toNat = 10 || c.toNat = 11 || c.toNat = 12 || c.toNat = 13 ||
c.toNat = 32 || c.toNat = 0xa0 || c.toNat = 0x1680 ||
(0x2000 ≤ c.toNat && c.toNat ≤ 0x200a) ||
c.toNat = 0x2028 || c.toNat = 0x2029 || c.toNat = 0x202f ||
c.toNat = 0x205f || c.toNat = 0x3000 || c.toNat = 0xfeff

/-- The characters the JavaScript regex metacharacter `.` does not match:
LF, CR, and the Unicode line/paragraph separators. -/
def isLineTerm (c : Char) : Bool :=
c.toNat = 10 || c.toNat = 13 || c.toNat = 0x2028 || c.toNat = 0x2029

/-- JavaScript `String.prototype.trim` on a character list: drop JS whitespace from both
ends. -/
def jsTrim (cs : List Char) : List Char :=
((cs.dropWhile isJsWs).reverse.dropWhile isJsWs).reverse

/-- JavaScript `String.prototype.split` with a single-character separator:
`jsSplit sep cs` never returns `[]`; the empty input yields `[[]]`, matching
JavaScript where the empty string splits to one empty fragment. -/
def jsSplit (sep : Char) : List Char → List (List Char)
| [] => [[]]
| c :: rest =>
  let r := jsSplit sep rest
  if c = sep then [] :: r
  else
    match r with
    | [] => [[c]]
    | h :: t => (c :: h) :: t

/-- Break a character list at the first occurrence of `sep`: returns the part
before it and, when `sep` occurs, the part after it. -/
def breakAt (sep : Char) : List Char → List Char × Option (List Char)
| [] => ([], none)
| c :: rest =>
  if c = sep then ([], some rest)
  else
    let p := breakAt sep rest
    (c :: p.1, p.2)

/-- Render a natural number as decimal digit characters (fuel-based so the
definition is structurally recursive and kernel-reducible). -/
def natDigitsAux : Nat → Nat → List Char → List Char
| 0, _, acc => acc
| fuel + 1, n, acc =>
  let d := Char.ofNat (48 + n % 10)
  if n < 10 then d :: acc else natDigitsAux fuel (n / 10) (d :: acc)

/-- Decimal digit characters of a natural number. -/
def natDigits (n : Nat) : List Char := natDigitsAux (n + 1) n []

/-- Numeric value of a list of decimal digit characters. -/
def digitsToNat (cs : List Char) : Nat :=
cs.foldl (fun n c => 10 * n + (c.toNat - 48)) 0

/-- Modelled from the spec: a semver numeric identifier — a non-empty digit
string with no leading zero (strict semantic-version numeral grammar). -/
def parseNumeral (cs : List Char) : Option Nat :=
if cs.isEmpty then none
else if cs.all Char.isDigit then
  match cs with
  | c :: _ :: _ => if c = '0' then none else some (digitsToNat cs)
  | _ => some (digitsToNat cs)
else none

/-- A character allowed in semver prerelease/build identifiers:
ASCII alphanumerics and hyphen. -/
def isIdentChar (c : Char) : Bool := c.isAlphanum || c = '-'

/-- Modelled from the spec: a single prerelease identifier — non-empty,
alphanumeric-or-hyphen characters; all-digit identifiers must be numerals
without leading zeros and compare numerically. -/
def parsePreId (cs : List Char) : Option PrereleaseId :=
if cs.isEmpty then none
else if ¬ cs.all isIdentChar then none
else if cs.all Char.isDigit then (parseNumeral cs).map PrereleaseId.num
else some (PrereleaseId.alph (String.mk cs))

/-- Map a parser over every fragment, succeeding only when all succeed. -/
def parseAll {α : Type} (p : List Char → Option α) : List (List Char) → Option (List α)
| [] => some []
| x :: xs =>
  match p x, parseAll p xs with
  | some a, some rest => some (a :: rest)
  | _, _ => none

/-- Modelled from the spec: a single build-metadata identifier — non-empty,
alphanumeric-or-hyphen characters (validated, then discarded by cleaning). -/
def parseBuildId (cs : List Char) : Option Unit :=
if cs.isEmpty then none
else if cs.all isIdentChar then some () else none

/-- Modelled from the spec: parse the dotted-numeric-plus-optional-prerelease
shape `major.minor.patch(-prerelease)?(+build)?` of a semantic version.
Exactly three numeric core components are required. -/
def parseSemver (cs : List Char) : Option Version :=
let afterPlus := breakAt '+' cs
let afterDash := breakAt '-' afterPlus.1
let buildOk : Bool :=
  match afterPlus.2 with
  | none => true
  | some b => (parseAll parseBuildId (jsSplit '.' b)).isSome
if ¬ buildOk then none
else
  match jsSplit '.' afterDash.1 with
  | [ma, mi, pa] =>
    match parseNumeral ma, parseNumeral mi, parseNumeral pa with
    | some a, some b, some c =>
      match afterDash.2 with
      | none => some ⟨a, b, c, []⟩
      | some pre =>
        match parseAll parsePreId (jsSplit '.' pre) with
        | some ids => some ⟨a, b, c, ids⟩
        | none => none
    | _, _, _ => none
  | _ => none

/-- Modelled from the spec: `semver.clean` — trim the string, strip a leading
`v`, and validate the dotted-numeric-plus-optional-prerelease shape, returning
the canonical version or rejecting the string as invalid. -/
def semverClean (s : String) : Option Version :=
let cs := jsTrim s.toList
let cs :=
  match cs with
  | 'v' :: rest => rest
  | other => other
parseSemver cs

/-- Render a prerelease identifier back to characters. -/
def PrereleaseId.chars : PrereleaseId → List Char
| .num n => natDigits n
| .alph s => s.toList

/-- Interpose `'.'` between rendered fragments. -/
def dotJoin : List (List Char) → List Char
| [] => []
| [x] => x
| x :: y :: rest => x ++ '.' :: dotJoin (y :: rest)

/-- The canonical string of a cleaned version, as `semver.clean` returns it:
`major.minor.patch` plus `-prerelease` when present (build metadata dropped). -/
def Version.render (v : Version) : String :=
String.mk (natDigits v.major ++ '.' :: natDigits v.minor ++ '.' :: natDigits v.patch ++
  (if v.prerelease.isEmpty then [] else '-' :: dotJoin (v.prerelease.map PrereleaseId.chars)))

/-! ## Semver precedence comparison and range satisfaction, modelled from the spec -/

/-- Three-way comparison of naturals by explicit case split. -/
def cmpNat (a b : Nat) : Ordering :=
if a < b then .lt else if a = b then .eq else .gt

/-- Three-way comparison of characters by codepoint. -/
def cmpChar (a b : Char) : Ordering := cmpNat a.toNat b.toNat

/-- Three-way lexical (codepoint) comparison of character lists; a strict
prefix is lower. -/
def cmpChars : List Char → List Char → Ordering
| [], [] => .eq
| [], _ :: _ => .lt
| _ :: _, [] => .gt
| a :: as, b :: bs => (cmpChar a b).then (cmpChars as bs)

/-- Three-way comparison of strings by the lexical (codepoint) order. -/
def cmpStr (a b : String) : Ordering :=
cmpChars a.toList b.toList

/-- Modelled from the spec: precedence comparison of prerelease identifiers —
numeric identifiers compare numerically, a numeric identifier is lower than
any alphanumeric one, alphanumeric identifiers compare lexically. -/
def PrereleaseId.cmp : PrereleaseId → PrereleaseId → Ordering
| .num a, .num b => cmpNat a b
| .num _, .alph _ => .lt
| .alph _, .num _ => .gt
| .alph a, .alph b => cmpStr a b

/-- Lexicographic comparison of identifier lists; a strict prefix is lower. -/
def cmpPreList : List PrereleaseId → List PrereleaseId → Ordering
| [], [] => .eq
| [], _ :: _ => .lt
| _ :: _, [] => .gt
| a :: as, b :: bs => (a.cmp b).then (cmpPreList as bs)

/-- Modelled from the spec: comparison of the prerelease fields of two
versions whose numeric triples agree — a version with a prerelease suffix is
ordered before the corresponding release version. -/
def cmpPre : List PrereleaseId → List PrereleaseId → Ordering
| [], [] => .eq
| [], _ :: _ => .gt
| _ :: _, [] => .lt
| a :: as, b :: bs => cmpPreList (a :: as) (b :: bs)

/-- Modelled from the spec: semantic-version precedence — major, then minor,
then patch, then prerelease identifiers. -/
def Version.cmp (v w : Version) : Ordering :=
(cmpNat v.major w.major).then ((cmpNat v.minor w.minor).then
  ((cmpNat v.patch w.patch).then (cmpPre v.prerelease w.prerelease)))

/-- The seven requirement operators of `VersionRequirement` in `doctor.ts`. -/
inductive VersionOperator where
| eq
| ge
| le
| gt
| lt
| caret
| tilde
deriving DecidableEq, Repr

/-- The operator's surface token, as written in requirement strings and in
constraint-description strings. -/
def VersionOperator.tok : VersionOperator → String
| .eq => "="
| .ge => ">="
| .le => "<="
| .gt => ">"
| .lt => "<"
| .caret => "^"
| .tilde => "~"

/-- Modelled from the spec: the exclusive upper bound of the caret range —
the next version in the leftmost non-zero component (its least prerelease
marking the boundary, per the standard semver caret-range convention). -/
def caretBound (w : Version) : Version :=
if 0 < w.major then ⟨w.major + 1, 0, 0, [.num 0]⟩
else if 0 < w.minor then ⟨0, w.minor + 1, 0, [.num 0]⟩
else ⟨0, 0, w.patch + 1, [.num 0]⟩

/-- Modelled from the spec: the exclusive upper bound of the tilde range —
the next minor version. -/
def tildeBound (w : Version) : Version :=
⟨w.major, w.minor + 1, 0, [.num 0]⟩

/-- Modelled from the spec: `semver.satisfies` on the range formed by one
operator and one cleaned version — `=` exact equality, the four comparison
operators by precedence, caret and tilde as half-open ranges up to their
conventional bounds. -/
def semverSatisfies (v : Version) (op : VersionOperator) (w : Version) : Bool :=
match op with
| .eq => v.cmp w == .eq
| .ge => v.cmp w != .lt
| .le => v.cmp w != .gt
| .gt => v.cmp w == .gt
| .lt => v.cmp w == .lt
| .caret => v.cmp w != .lt && v.cmp (caretBound w) == .lt
| .tilde => v.cmp w != .lt && v.cmp (tildeBound w) == .lt

/-! ## The engine of `doctor.ts`, embedded from the source -/

/-- A constraint object: `operator` plus raw `version` string
(`VersionRequirement` object shape in `doctor.ts`). -/
structure Constraint where
operator : VersionOperator
version : String
deriving DecidableEq, Repr

/-- The polymorphic requirement input of `satisfiesRequirement`: a
comma-separated string, a single constraint object, or a list of constraint
objects (the three-armed union type `VersionRequirement` in `doctor.ts`). -/
inductive VersionRequirement where
| text (s : String)
| single (c : Constraint)
| listOf (cs : List Constraint)
deriving DecidableEq, Repr

/-- The result record of `satisfiesRequirement` (`RequirementCheckResult`
in `doctor.ts`). -/
structure RequirementCheckResult where
satisfies : Bool
failedConstraints : List String
satisfiedConstraints : List String
deriving DecidableEq, Repr

/-- The alternation order of the operator group in the regex
`(>=|<=|>|<|=|\x5e|~)` of `parseStringRequirement`, with each token's
characters. -/
def opAlternatives : List (VersionOperator × List Char) :=
[(.ge, ['>', '=']), (.le, ['<', '=']), (.gt, ['>']), (.lt, ['<']),
 (.eq, ['=']), (.caret, ['^']), (.tilde, ['~'])]

/-- One trimmed fragment against the anchored regex of
`parseStringRequirement` (operator alternation, then greedy `\s`-star, then a
non-empty dot-plus capture, which cannot cross a line terminator; the capture
is then trimmed).  Alternatives are retried in order on overall failure,
exactly as a backtracking regex engine does. -/
def fragMatch (part : List Char) : Option Constraint :=
opAlternatives.findSome? fun alt =>
  if alt.2.isPrefixOf part then
    let rest := (part.drop alt.2.length).dropWhile isJsWs
    if rest.isEmpty || rest.any isLineTerm then none
    else some ⟨alt.1, String.mk (jsTrim rest)⟩
  else none

/-- The source's `EnvChecker.parseStringRequirement`: split the requirement on commas,
trim each part, and keep the constraints of the parts the regex matches, in
input order. -/
def parseStringRequirement (requirement : String) : List Constraint :=
((jsSplit ',' requirement.toList).map jsTrim).filterMap fragMatch

/-- The per-constraint loop of the string branch of
`EnvChecker.satisfiesRequirement`: returns the accumulated
(failed, satisfied) constraint-description lists. -/
def evalStringLoop (cleanCurrent : Version) : List Constraint → List String × List String
| [] => ([], [])
| req :: rest =>
  match semverClean req.version with
  | none =>
    let acc := evalStringLoop cleanCurrent rest
    (("Invalid version format: " ++ req.operator.tok ++ req.version) :: acc.1, acc.2)
  | some cleanRequired =>
    let acc := evalStringLoop cleanCurrent rest
    if semverSatisfies cleanCurrent req.operator cleanRequired
    then (acc.1, (req.operator.tok ++ cleanRequired.render) :: acc.2)
    else ((req.operator.tok ++ cleanRequired.render) :: acc.1, acc.2)

/-- The per-constraint loop of the array branch of
`EnvChecker.satisfiesRequirement` (textually duplicated from the string
branch in the source). -/
def evalArrayLoop (cleanCurrent : Version) : List Constraint → List String × List String
| [] => ([], [])
| req :: rest =>
  match semverClean req.version with
  | none =>
    let acc := evalArrayLoop cleanCurrent rest
    (("Invalid version format: " ++ req.operator.tok ++ req.version) :: acc.1, acc.2)
  | some cleanRequired =>
    let acc := evalArrayLoop cleanCurrent rest
    if semverSatisfies cleanCurrent req.operator cleanRequired
    then (acc.1, (req.operator.tok ++ cleanRequired.render) :: acc.2)
    else ((req.operator.tok ++ cleanRequired.render) :: acc.1, acc.2)

/-- The source's `EnvChecker.satisfiesRequirement`: clean the current version (single
synthetic failure when that fails), then dispatch on the requirement shape —
string requirements are parsed then looped over, array requirements looped
over directly, a single object requirement evaluated on its own. -/
def satisfiesRequirement (currentVersion : String) (requirement : VersionRequirement) :
    RequirementCheckResult :=
match semverClean currentVersion with
| none => ⟨false, ["Invalid current version format"], []⟩
| some cleanCurrent =>
  match requirement with
  | .text s =>
    let acc := evalStringLoop cleanCurrent (parseStringRequirement s)
    ⟨acc.1.length == 0, acc.1, acc.2⟩
  | .listOf cs =>
    let acc := evalArrayLoop cleanCurrent cs
    ⟨acc.1.length == 0, acc.1, acc.2⟩
  | .single c =>
    match semverClean c.version with
    | none => ⟨false, ["Invalid version format: " ++ c.operator.tok ++ c.version], []⟩
    | some cleanRequired =>
      let ok := semverSatisfies cleanCurrent c.operator cleanRequired
      if ok then ⟨ok, [], [c.operator.tok ++ cleanRequired.render]⟩
      else ⟨ok, [c.operator.tok ++ cleanRequired.render], []⟩

/-! ## Spec-side declarative definitions

These follow the words of the specification and the claims, to be compared
with the executable definitions above. -/

/-- Declarative lexical order on character lists: decided by the first
differing character, a strict prefix being lower. -/
def charsLt : List Char → List Char → Prop
| _, [] => False
| [], _ :: _ => True
| a :: as, b :: bs => a < b ∨ (a = b ∧ charsLt as bs)

/-- Declarative precedence order on prerelease identifiers, following the
spec: numeric identifiers compare numerically, numeric below alphanumeric,
alphanumeric identifiers lexically. -/
def preIdLt : PrereleaseId → PrereleaseId → Prop
| .num a, .num b => a < b
| .num _, .alph _ => True
| .alph _, .num _ => False
| .alph a, .alph b => charsLt a.toList b.toList

/-- Declarative lexicographic order on prerelease identifier lists, a strict
prefix being lower. -/
def preListLt : List PrereleaseId → List PrereleaseId → Prop
| _, [] => False
| [], _ :: _ => True
| a :: as, b :: bs => preIdLt a b ∨ (a = b ∧ preListLt as bs)

/-- Declarative order on the prerelease fields of two versions with equal
numeric triples: a version with a prerelease suffix is ordered before the
corresponding release version. -/
def preVerLt : List PrereleaseId → List PrereleaseId → Prop
| [], _ => False
| _ :: _, [] => True
| a :: as, b :: bs => preListLt (a :: as) (b :: bs)

/-- Declarative standard semantic-version precedence, following the claim:
major, then minor, then patch, then prerelease identifiers, with a prerelease
version ordered before the corresponding release. -/
def precLt (v w : Version) : Prop :=
v.major < w.major ∨ (v.major = w.major ∧ (v.minor < w.minor ∨ (v.minor = w.minor ∧
  (v.patch < w.patch ∨ (v.patch = w.patch ∧ preVerLt v.prerelease w.prerelease)))))

/-- The claim's caret criterion: the current version does not change the
leftmost non-zero component of the constraint version. -/
def leftmostSame (w v : Version) : Bool :=
if 0 < w.major then v.major == w.major
else if 0 < w.minor then v.major == 0 && v.minor == w.minor
else v.major == 0 && v.minor == 0 && v.patch == w.patch

/-! ## Bridge lemmas between the executable comparators and the declarative
order -/

theorem cmpNat_eq_lt {a b : Nat} : cmpNat a b = .lt ↔ a < b := by
unfold cmpNat
split
· simp [*]
· split <;> simp <;> omega

theorem cmpNat_eq_eq {a b : Nat} : cmpNat a b = .eq ↔ a = b := by
unfold cmpNat
split
· simp; omega
· split <;> simp <;> omega

theorem cmpNat_eq_gt {a b : Nat} : cmpNat a b = .gt ↔ b < a := by
unfold cmpNat
split
· simp; omega
· split <;> simp <;> omega

theorem cmpChar_eq_lt {a b : Char} : cmpChar a b = .lt ↔ a < b := by
unfold cmpChar
rw [cmpNat_eq_lt]
exact Iff.rfl

theorem cmpChar_eq_eq {a b : Char} : cmpChar a b = .eq ↔ a = b := by
unfold cmpChar
rw [cmpNat_eq_eq]
constructor
· exact fun h => Char.eq_of_val_eq (UInt32.toNat.inj h)
· exact fun h => by rw [h]

theorem cmpChar_eq_gt {a b : Char} : cmpChar a b = .gt ↔ b < a := by
unfold cmpChar
rw [cmpNat_eq_gt]
exact Iff.rfl

theorem cmpChars_eq_lt : ∀ xs ys : List Char, cmpChars xs ys = .lt ↔ charsLt xs ys := by
intro xs
induction xs with
| nil => intro ys; cases ys <;> simp [cmpChars, charsLt]
| cons a as ih =>
  intro ys
  cases ys with
  | nil => simp [cmpChars, charsLt]
  | cons b bs =>
    simp [cmpChars, charsLt, Ordering.then_eq_lt, cmpChar_eq_lt, cmpChar_eq_eq, ih]

theorem cmpChars_eq_eq : ∀ xs ys : List Char, cmpChars xs ys = .eq ↔ xs = ys := by
intro xs
induction xs with
| nil => intro ys; cases ys <;> simp [cmpChars]
| cons a as ih =>
  intro ys
  cases ys with
  | nil => simp [cmpChars]
  | cons b bs =>
    simp [cmpChars, Ordering.then_eq_eq, cmpChar_eq_eq, ih]

theorem cmpChars_eq_gt : ∀ xs ys : List Char, cmpChars xs ys = .gt ↔ charsLt ys xs := by
intro xs
induction xs with
| nil => intro ys; cases ys <;> simp [cmpChars, charsLt]
| cons a as ih =>
  intro ys
  cases ys with
  | nil => simp [cmpChars, charsLt]
  | cons b bs =>
    simp [cmpChars, charsLt, Ordering.then_eq_gt, cmpChar_eq_gt, cmpChar_eq_eq, ih,
      eq_comm (a := a) (b := b)]

theorem preId_cmp_eq_lt {a b : PrereleaseId} : a.cmp b = .lt ↔ preIdLt a b := by
cases a <;> cases b <;>
  simp [PrereleaseId.cmp, preIdLt, cmpNat_eq_lt, cmpStr, cmpChars_eq_lt]

theorem preId_cmp_eq_eq {a b : PrereleaseId} : a.cmp b = .eq ↔ a = b := by
cases a <;> cases b <;>
  simp [PrereleaseId.cmp, preIdLt, cmpNat_eq_eq, cmpStr, cmpChars_eq_eq,
    String.toList]
exact ⟨fun h => String.ext h, fun h => by rw [h]⟩

theorem preId_cmp_eq_gt {a b : PrereleaseId} : a.cmp b = .gt ↔ preIdLt b a := by
cases a <;> cases b <;>
  simp [PrereleaseId.cmp, preIdLt, cmpNat_eq_gt, cmpStr, cmpChars_eq_gt]

theorem cmpPreList_eq_lt : ∀ xs ys : List PrereleaseId,
    cmpPreList xs ys = .lt ↔ preListLt xs ys := by
intro xs
induction xs with
| nil => intro ys; cases ys <;> simp [cmpPreList, preListLt]
| cons a as ih =>
  intro ys
  cases ys with
  | nil => simp [cmpPreList, preListLt]
  | cons b bs =>
    simp [cmpPreList, preListLt, Ordering.then_eq_lt, preId_cmp_eq_lt, preId_cmp_eq_eq, ih]

theorem cmpPreList_eq_gt : ∀ xs ys : List PrereleaseId,
    cmpPreList xs ys = .gt ↔ preListLt ys xs := by
intro xs
induction xs with
| nil => intro ys; cases ys <;> simp [cmpPreList, preListLt]
| cons a as ih =>
  intro ys
  cases ys with
  | nil => simp [cmpPreList, preListLt]
  | cons b bs =>
    simp [cmpPreList, preListLt, Ordering.then_eq_gt, preId_cmp_eq_gt, preId_cmp_eq_eq, ih,
      eq_comm (a := a) (b := b)]

theorem cmpPreList_eq_eq : ∀ xs ys : List PrereleaseId, cmpPreList xs ys = .eq ↔ xs = ys := by
intro xs
induction xs with
| nil => intro ys; cases ys <;> simp [cmpPreList]
| cons a as ih =>
  intro ys
  cases ys with
  | nil => simp [cmpPreList]
  | cons b bs => simp [cmpPreList, Ordering.then_eq_eq, preId_cmp_eq_eq, ih]

theorem cmpPre_eq_lt {xs ys : List PrereleaseId} : cmpPre xs ys = .lt ↔ preVerLt xs ys := by
cases xs <;> cases ys <;> simp [cmpPre, preVerLt, cmpPreList_eq_lt, preListLt]

theorem cmpPre_eq_gt {xs ys : List PrereleaseId} : cmpPre xs ys = .gt ↔ preVerLt ys xs := by
cases xs <;> cases ys <;> simp [cmpPre, preVerLt, cmpPreList_eq_gt, preListLt]

theorem cmpPre_eq_eq {xs ys : List PrereleaseId} : cmpPre xs ys = .eq ↔ xs = ys := by
cases xs <;> cases ys <;> simp [cmpPre, cmpPreList_eq_eq]

theorem versionCmp_eq_lt {v w : Version} : v.cmp w = .lt ↔ precLt v w := by
unfold Version.cmp precLt
simp [Ordering.then_eq_lt, cmpNat_eq_lt, cmpNat_eq_eq, cmpPre_eq_lt]

theorem versionCmp_eq_gt {v w : Version} : v.cmp w = .gt ↔ precLt w v := by
unfold Version.cmp precLt
simp [Ordering.then_eq_gt, cmpNat_eq_gt, cmpNat_eq_eq, cmpPre_eq_gt,
  eq_comm (a := v.major), eq_comm (a := v.minor), eq_comm (a := v.patch)]

theorem versionCmp_eq_eq {v w : Version} : v.cmp w = .eq ↔ v = w := by
cases v with
| mk a b c p =>
  cases w with
  | mk a₂ b₂ c₂ p₂ =>
    unfold Version.cmp
    simp [Ordering.then_eq_eq, cmpNat_eq_eq, cmpPre_eq_eq, Version.mk.injEq, and_assoc]

/-! ## Range-bound lemmas for caret and tilde -/

/-- No prerelease field is below the boundary prerelease `-0`. -/
theorem cmpPre_num0_ne_lt : ∀ p : List PrereleaseId, cmpPre p [.num 0] ≠ .lt := by
intro p
cases p with
| nil => simp [cmpPre]
| cons a as =>
  cases a with
  | num n =>
    cases as <;>
      simp [cmpPre, cmpPreList, PrereleaseId.cmp, cmpNat, Ordering.then] <;>
      split <;> simp_all
  | alph s =>
    cases as <;> simp [cmpPre, cmpPreList, PrereleaseId.cmp, Ordering.then]

/-- Comparison against a bound of the shape `a.b.c-0` is decided purely by
the numeric triple. -/
theorem cmp_bound_lt (v : Version) (a b c : Nat) :
    v.cmp ⟨a, b, c, [.num 0]⟩ = .lt ↔
      (v.major < a ∨ (v.major = a ∧ (v.minor < b ∨ (v.minor = b ∧ v.patch < c)))) := by
unfold Version.cmp
simp [Ordering.then_eq_lt, cmpNat_eq_lt, cmpNat_eq_eq, cmpPre_num0_ne_lt v.prerelease]

/-- A version at least `w` has a numeric triple lexicographically at least
that of `w`. -/
theorem triple_ge_of_cmp_ne_lt {v w : Version} (h : v.cmp w ≠ .lt) :
    w.major < v.major ∨ (w.major = v.major ∧ (w.minor < v.minor ∨
      (w.minor = v.minor ∧ w.patch ≤ v.patch))) := by
unfold Version.cmp at h
simp only [ne_eq, Ordering.then_eq_lt, cmpNat_eq_lt, cmpNat_eq_eq, not_or, not_and] at h
rcases Nat.lt_trichotomy w.major v.major with hm | hm | hm
· exact Or.inl hm
· refine Or.inr ⟨hm, ?_⟩
  have h2 := h.2 hm.symm
  simp only [not_or, not_and] at h2
  rcases Nat.lt_trichotomy w.minor v.minor with hn | hn | hn
  · exact Or.inl hn
  · refine Or.inr ⟨hn, ?_⟩
    have h3 := h2.2 hn.symm
    simp only [not_or, not_and] at h3
    omega
  · exact absurd hn h2.1
· exact absurd hm h.1

theorem ordBeq_iff {o p : Ordering} : (o == p) = true ↔ o = p := by
cases o <;> cases p <;> decide

theorem ordBne_iff {o p : Ordering} : (o != p) = true ↔ o ≠ p := by
cases o <;> cases p <;> decide

/-- For a current version at least the constraint version, the caret range is
satisfied exactly when the leftmost non-zero component is unchanged. -/
theorem caret_iff_leftmost {v w : Version} (h : v.cmp w ≠ .lt) :
    semverSatisfies v .caret w = true ↔ leftmostSame w v = true := by
have htr := triple_ge_of_cmp_ne_lt h
unfold semverSatisfies caretBound leftmostSame
by_cases h1 : 0 < w.major
· rw [if_pos h1, if_pos h1]
  simp only [Bool.and_eq_true, ordBne_iff, ordBeq_iff, beq_iff_eq, cmp_bound_lt]
  rw [and_iff_right h]
  omega
· rw [if_neg h1, if_neg h1]
  by_cases h2 : 0 < w.minor
  · rw [if_pos h2, if_pos h2]
    simp only [Bool.and_eq_true, ordBne_iff, ordBeq_iff, beq_iff_eq, cmp_bound_lt]
    rw [and_iff_right h]
    omega
  · rw [if_neg h2, if_neg h2]
    simp only [Bool.and_eq_true, ordBne_iff, ordBeq_iff, beq_iff_eq, cmp_bound_lt]
    rw [and_iff_right h]
    omega

/-- For a current version at least the constraint version, the tilde range is
satisfied exactly when major and minor are unchanged. -/
theorem tilde_iff_patch_level {v w : Version} (h : v.cmp w ≠ .lt) :
    semverSatisfies v .tilde w = true ↔ (v.major = w.major ∧ v.minor = w.minor) := by
have htr := triple_ge_of_cmp_ne_lt h
unfold semverSatisfies tildeBound
simp only [Bool.and_eq_true, ordBne_iff, ordBeq_iff, beq_iff_eq, cmp_bound_lt]
rw [and_iff_right h]
omega

/-! ## Structural lemmas about the evaluation loops -/

/-- The two textually duplicated per-constraint loops agree. -/
theorem evalStringLoop_eq_evalArrayLoop (u : Version) :
    ∀ cs : List Constraint, evalStringLoop u cs = evalArrayLoop u cs := by
intro cs
induction cs with
| nil => rfl
| cons c rest ih =>
  unfold evalStringLoop evalArrayLoop
  cases semverClean c.version <;> simp [ih]

/-- The cons-step equation of the array-branch loop. -/
theorem evalArrayLoop_cons (u : Version) (c : Constraint) (rest : List Constraint) :
    evalArrayLoop u (c :: rest) =
      match semverClean c.version with
      | none =>
        (("Invalid version format: " ++ c.operator.tok ++ c.version) ::
          (evalArrayLoop u rest).1, (evalArrayLoop u rest).2)
      | some w =>
        if semverSatisfies u c.operator w
        then ((evalArrayLoop u rest).1, (c.operator.tok ++ w.render) :: (evalArrayLoop u rest).2)
        else ((c.operator.tok ++ w.render) :: (evalArrayLoop u rest).1,
          (evalArrayLoop u rest).2) := by
cases hc : semverClean c.version <;> simp [evalArrayLoop, hc]

/-- The loop distributes over list concatenation, appending the failed and
satisfied lists piecewise. -/
theorem evalArrayLoop_append (u : Version) :
    ∀ xs ys : List Constraint,
      evalArrayLoop u (xs ++ ys) =
        ((evalArrayLoop u xs).1 ++ (evalArrayLoop u ys).1,
         (evalArrayLoop u xs).2 ++ (evalArrayLoop u ys).2) := by
intro xs ys
induction xs with
| nil => simp [evalArrayLoop]
| cons c rest ih =>
  rw [List.cons_append, evalArrayLoop_cons, evalArrayLoop_cons]
  cases semverClean c.version with
  | none => simp [ih]
  | some w =>
    by_cases hs : semverSatisfies u c.operator w = true <;> simp [hs, ih]

/-- The outcome of one constraint against a cleaned current version: whether
it counts as satisfied, and the entry string it contributes to the
corresponding result list. -/
def constraintEntry (u : Version) (c : Constraint) : Bool × String :=
match semverClean c.version with
| none => (false, "Invalid version format: " ++ c.operator.tok ++ c.version)
| some w => (semverSatisfies u c.operator w, c.operator.tok ++ w.render)

/-- The array-branch loop output, characterised entry-wise: each constraint
contributes its entry to exactly one of the two lists, in input order. -/
theorem evalArrayLoop_eq_filterMap (u : Version) : ∀ cs : List Constraint,
    evalArrayLoop u cs =
      (cs.filterMap (fun c =>
         if (constraintEntry u c).1 then none else some (constraintEntry u c).2),
       cs.filterMap (fun c =>
         if (constraintEntry u c).1 then some (constraintEntry u c).2 else none)) := by
intro cs
induction cs with
| nil => rfl
| cons c rest ih =>
  rw [evalArrayLoop_cons]
  cases hc : semverClean c.version with
  | none => simp [constraintEntry, hc, ih]
  | some w =>
    by_cases hs : semverSatisfies u c.operator w = true <;>
      simp [constraintEntry, hc, hs, ih]

/-- Every constraint lands in exactly one of the two lists, so the lengths
sum to the number of constraints. -/
theorem evalArrayLoop_length (u : Version) : ∀ cs : List Constraint,
    (evalArrayLoop u cs).1.length + (evalArrayLoop u cs).2.length = cs.length := by
intro cs
induction cs with
| nil => rfl
| cons c rest ih =>
  rw [evalArrayLoop_cons]
  cases hc : semverClean c.version with
  | none => simpa using by omega
  | some w =>
    by_cases hs : semverSatisfies u c.operator w = true <;> simp [hs] <;> omega

/-! ## Spec-side parsers for the string-requirement grammar claim -/

/-- The fragment grammar exactly as the claim states it: an operator token
from the alternation (longer tokens before their single-character prefixes)
followed by optional whitespace and a non-empty version remainder, with no
restriction on the remainder's characters. -/
def claimFragMatch (part : List Char) : Option Constraint :=
opAlternatives.findSome? fun alt =>
  if alt.2.isPrefixOf part then
    let rest := (part.drop alt.2.length).dropWhile isJsWs
    if rest.isEmpty then none else some ⟨alt.1, String.mk (jsTrim rest)⟩
  else none

/-- The string-requirement parser as the claim describes it: split on commas,
trim, keep the fragments matching the claim's grammar in order. -/
def claimParseString (s : String) : List Constraint :=
((jsSplit ',' s.toList).map jsTrim).filterMap claimFragMatch

/-- The amended fragment grammar: as the claim states it, plus the regex-dot
restriction that the version remainder may not contain a line terminator
(the dot in the source's capture group cannot cross one). -/
def amendedFragScan : List (VersionOperator × List Char) → List Char → Option Constraint
| [], _ => none
| alt :: alts, part =>
  let rest := (part.drop alt.2.length).dropWhile isJsWs
  if alt.2.isPrefixOf part ∧ rest ≠ [] ∧ rest.all (fun c => !(isLineTerm c)) then
    some ⟨alt.1, String.mk (jsTrim rest)⟩
  else amendedFragScan alts part

/-- The string-requirement parser per the amended claim. -/
def amendedParseString (s : String) : List Constraint :=
((jsSplit ',' s.toList).map jsTrim).filterMap (amendedFragScan opAlternatives)

/-- The regex fragment match agrees with the amended scan over any
alternative list. -/
theorem fragMatch_scan_eq : ∀ (alts : List (VersionOperator × List Char)) (part : List Char),
    (alts.findSome? fun alt =>
      if alt.2.isPrefixOf part then
        let rest := (part.drop alt.2.length).dropWhile isJsWs
        if rest.isEmpty || rest.any isLineTerm then none
        else some ⟨alt.1, String.mk (jsTrim rest)⟩
      else none) = amendedFragScan alts part := by
intro alts part
induction alts with
| nil => rfl
| cons alt alts ih =>
  rw [List.findSome?_cons, amendedFragScan]
  by_cases hp : alt.2.isPrefixOf part
  · rw [if_pos hp]
    by_cases he : ((part.drop alt.2.length).dropWhile isJsWs).isEmpty
    · have h1 : (((part.drop alt.2.length).dropWhile isJsWs).isEmpty ||
          ((part.drop alt.2.length).dropWhile isJsWs).any isLineTerm) = true := by
        simp [he]
      have h2 : ¬(alt.2.isPrefixOf part = true ∧
          (part.drop alt.2.length).dropWhile isJsWs ≠ [] ∧
          (((part.drop alt.2.length).dropWhile isJsWs).all fun c => !isLineTerm c) = true) :=
        fun hcon => hcon.2.1 (by simpa [List.isEmpty_iff] using he)
      rw [if_pos h1, if_neg h2]
      exact ih
    · by_cases ha : ((part.drop alt.2.length).dropWhile isJsWs).any isLineTerm
      · have h1 : (((part.drop alt.2.length).dropWhile isJsWs).isEmpty ||
            ((part.drop alt.2.length).dropWhile isJsWs).any isLineTerm) = true := by
          simp [ha]
        have h2 : ¬(alt.2.isPrefixOf part = true ∧
            (part.drop alt.2.length).dropWhile isJsWs ≠ [] ∧
            (((part.drop alt.2.length).dropWhile isJsWs).all fun c => !isLineTerm c) = true) := by
          intro hcon
          rcases hcon with ⟨_, _, hall⟩
          rw [List.all_eq_true] at hall
          rw [List.any_eq_true] at ha
          rcases ha with ⟨x, hx, hlt⟩
          have := hall x hx
          simp [hlt] at this
        rw [if_pos h1, if_neg h2]
        exact ih
      · have h1 : ¬((((part.drop alt.2.length).dropWhile isJsWs).isEmpty ||
            ((part.drop alt.2.length).dropWhile isJsWs).any isLineTerm) = true) := by
          simp only [Bool.or_eq_true, not_or]
          exact ⟨he, ha⟩
        have h2 : alt.2.isPrefixOf part = true ∧
            (part.drop alt.2.length).dropWhile isJsWs ≠ [] ∧
            (((part.drop alt.2.length).dropWhile isJsWs).all fun c => !isLineTerm c) = true := by
          refine ⟨hp, by simpa [List.isEmpty_iff] using he, ?_⟩
          rw [List.all_eq_true]
          intro x hx
          rw [List.any_eq_true] at ha
          by_cases hlx : isLineTerm x = true
          · exact absurd ⟨x, hx, hlx⟩ ha
          · simpa using hlx
        rw [if_neg h1, if_pos h2]
  · rw [if_neg hp, if_neg (fun hcon => hp hcon.1)]
    exact ih

/-! ## Shared helper lemmas for the claims -/

theorem length_beq_zero_eq_isEmpty (l : List String) : (l.length == 0) = l.isEmpty := by
cases l <;> rfl

/-- With a valid current version, the result is the array loop's output
packaged with the emptiness flag. -/
theorem satisfiesRequirement_listOf {v : String} {u : Version}
    (hv : semverClean v = some u) (cs : List Constraint) :
    satisfiesRequirement v (.listOf cs) =
      ⟨(evalArrayLoop u cs).1.length == 0, (evalArrayLoop u cs).1, (evalArrayLoop u cs).2⟩ := by
unfold satisfiesRequirement
rw [hv]

/-- With an invalid current version, every requirement yields the synthetic
failure result. -/
theorem satisfiesRequirement_invalid {v : String} (h : semverClean v = none)
    (r : VersionRequirement) :
    satisfiesRequirement v r = ⟨false, ["Invalid current version format"], []⟩ := by
unfold satisfiesRequirement
rw [h]

/-- With a valid current version, the string branch is the string loop's
output packaged with the emptiness flag. -/
theorem satisfiesRequirement_text {v : String} {u : Version}
    (hv : semverClean v = some u) (s : String) :
    satisfiesRequirement v (.text s) =
      ⟨(evalStringLoop u (parseStringRequirement s)).1.length == 0,
        (evalStringLoop u (parseStringRequirement s)).1,
        (evalStringLoop u (parseStringRequirement s)).2⟩ := by
unfold satisfiesRequirement
rw [hv]

/-- The single-object branch with a constraint version that fails cleaning. -/
theorem satisfiesRequirement_single_invalid {v : String} {u : Version}
    (hv : semverClean v = some u) {c : Constraint} (hc : semverClean c.version = none) :
    satisfiesRequirement v (.single c) =
      ⟨false, ["Invalid version format: " ++ c.operator.tok ++ c.version], []⟩ := by
simp only [satisfiesRequirement, hv, hc]

/-- The single-object branch with a constraint version that cleans. -/
theorem satisfiesRequirement_single_valid {v : String} {u : Version}
    (hv : semverClean v = some u) {c : Constraint} {w : Version}
    (hc : semverClean c.version = some w) :
    satisfiesRequirement v (.single c) =
      if semverSatisfies u c.operator w
      then ⟨semverSatisfies u c.operator w, [], [c.operator.tok ++ w.render]⟩
      else ⟨semverSatisfies u c.operator w, [c.operator.tok ++ w.render], []⟩ := by
simp only [satisfiesRequirement, hv, hc]

/-- The string branch evaluates exactly as the array branch does on the
parsed constraint list. -/
theorem text_eq_listOf (v s : String) :
    satisfiesRequirement v (.text s) =
      satisfiesRequirement v (.listOf (parseStringRequirement s)) := by
cases hv : semverClean v with
| none => rw [satisfiesRequirement_invalid hv, satisfiesRequirement_invalid hv]
| some u =>
  rw [satisfiesRequirement_text hv, satisfiesRequirement_listOf hv,
    evalStringLoop_eq_evalArrayLoop]

/-- A list containing the constraint `< 22` always contributes the fixed
diagnostic entry and cannot be satisfied. -/
theorem lt22_forces_failure {v : String} {u : Version} (hv : semverClean v = some u)
    (xs ys : List Constraint) :
    (satisfiesRequirement v (.listOf (xs ++ ⟨.lt, "22"⟩ :: ys))).satisfies = false ∧
      "Invalid version format: <22" ∈
        (satisfiesRequirement v (.listOf (xs ++ ⟨.lt, "22"⟩ :: ys))).failedConstraints := by
rw [satisfiesRequirement_listOf hv]
have hfail : (evalArrayLoop u (xs ++ ⟨.lt, "22"⟩ :: ys)).1 =
    (evalArrayLoop u xs).1 ++ "Invalid version format: <22" :: (evalArrayLoop u ys).1 := by
  rw [evalArrayLoop_append, evalArrayLoop_cons]
  rw [show semverClean "22" = none from by decide]
  rfl
constructor
· simp [hfail]
· simp [hfail]

/-! ## The claims -/

/-- C1: for every current version string and every requirement shape, the
result's satisfies flag is true exactly when its failedConstraints list is
empty. -/
theorem claim1_satisfies_iff_no_failed (v : String) (r : VersionRequirement) :
    (satisfiesRequirement v r).satisfies =
      (satisfiesRequirement v r).failedConstraints.isEmpty := by
cases hv : semverClean v with
| none =>
  rw [satisfiesRequirement_invalid hv]
  rfl
| some u =>
  cases r with
  | text s =>
    rw [satisfiesRequirement_text hv]
    exact length_beq_zero_eq_isEmpty _
  | listOf cs =>
    rw [satisfiesRequirement_listOf hv]
    exact length_beq_zero_eq_isEmpty _
  | single c =>
    cases hc : semverClean c.version with
    | none =>
      rw [satisfiesRequirement_single_invalid hv hc]
      rfl
    | some w =>
      rw [satisfiesRequirement_single_valid hv hc]
      by_cases hs : semverSatisfies u c.operator w = true
      · rw [if_pos hs, hs]
        rfl
      · rw [if_neg hs]
        rw [Bool.not_eq_true] at hs
        rw [hs]
        rfl

/-- C2: a current version that fails cleaning short-circuits every
requirement to the single synthetic failure result. -/
theorem claim2_invalid_current_short_circuits (v : String) (r : VersionRequirement)
    (h : semverClean v = none) :
    satisfiesRequirement v r = ⟨false, ["Invalid current version format"], []⟩ := by
unfold satisfiesRequirement
rw [h]

theorem claim2_witness :
    semverClean "invalid" = none ∧
      satisfiesRequirement "invalid" (.text ">=18.0.0") =
        ⟨false, ["Invalid current version format"], []⟩ :=
  ⟨by decide, claim2_invalid_current_short_circuits "invalid" (.text ">=18.0.0") (by decide)⟩

/-- C3: with a valid current version, each constraint of a list requirement
contributes exactly one entry to exactly one of the two lists (lengths sum to
the number of constraints), and both lists keep the input order. -/
theorem claim3_partition_in_order (v : String) (u : Version) (cs : List Constraint)
    (h : semverClean v = some u) :
    (satisfiesRequirement v (.listOf cs)).failedConstraints.length +
        (satisfiesRequirement v (.listOf cs)).satisfiedConstraints.length = cs.length ∧
      (satisfiesRequirement v (.listOf cs)).failedConstraints =
        cs.filterMap (fun c =>
          if (constraintEntry u c).1 then none else some (constraintEntry u c).2) ∧
      (satisfiesRequirement v (.listOf cs)).satisfiedConstraints =
        cs.filterMap (fun c =>
          if (constraintEntry u c).1 then some (constraintEntry u c).2 else none) := by
rw [satisfiesRequirement_listOf h]
refine ⟨evalArrayLoop_length u cs, ?_, ?_⟩
· rw [evalArrayLoop_eq_filterMap]
· rw [evalArrayLoop_eq_filterMap]

theorem claim3_witness :
    (satisfiesRequirement "1.2.3"
        (.listOf [⟨.ge, "1.0.0"⟩, ⟨.lt, "bad"⟩])).failedConstraints.length +
      (satisfiesRequirement "1.2.3"
        (.listOf [⟨.ge, "1.0.0"⟩, ⟨.lt, "bad"⟩])).satisfiedConstraints.length = 2 :=
  (claim3_partition_in_order "1.2.3" ⟨1, 2, 3, []⟩ [⟨.ge, "1.0.0"⟩, ⟨.lt, "bad"⟩] (by decide)).1

/-- C4: a constraint whose version fails cleaning contributes exactly the
diagnostic entry built from its operator token and raw version, in position,
and the sibling constraints evaluate exactly as they would without it. -/
theorem claim4_malformed_constraint_diagnostic (v : String) (u : Version)
    (xs ys : List Constraint) (c : Constraint)
    (hv : semverClean v = some u) (hc : semverClean c.version = none) :
    (satisfiesRequirement v (.listOf (xs ++ c :: ys))).failedConstraints =
        (evalArrayLoop u xs).1 ++
          ("Invalid version format: " ++ c.operator.tok ++ c.version) ::
            (evalArrayLoop u ys).1 ∧
      (satisfiesRequirement v (.listOf (xs ++ c :: ys))).satisfiedConstraints =
        (satisfiesRequirement v (.listOf (xs ++ ys))).satisfiedConstraints := by
rw [satisfiesRequirement_listOf hv, satisfiesRequirement_listOf hv]
have hcons : evalArrayLoop u (c :: ys) =
    (("Invalid version format: " ++ c.operator.tok ++ c.version) :: (evalArrayLoop u ys).1,
      (evalArrayLoop u ys).2) := by
  rw [evalArrayLoop_cons, hc]
refine ⟨?_, ?_⟩
· rw [evalArrayLoop_append, hcons]
· rw [evalArrayLoop_append, hcons, evalArrayLoop_append]

theorem claim4_witness :
    (satisfiesRequirement "1.2.3"
        (.listOf ([⟨.ge, "1.0.0"⟩] ++ ⟨.lt, "bad"⟩ :: [⟨.lt, "2.0.0"⟩]))).failedConstraints =
      (evalArrayLoop ⟨1, 2, 3, []⟩ [⟨.ge, "1.0.0"⟩]).1 ++
        ("Invalid version format: " ++ VersionOperator.tok .lt ++ "bad") ::
          (evalArrayLoop ⟨1, 2, 3, []⟩ [⟨.lt, "2.0.0"⟩]).1 :=
  (claim4_malformed_constraint_diagnostic "1.2.3" ⟨1, 2, 3, []⟩ [⟨.ge, "1.0.0"⟩]
    [⟨.lt, "2.0.0"⟩] ⟨.lt, "bad"⟩ (by decide) (by decide)).1

/-- C5 as stated is false: on a fragment whose version remainder contains a
line terminator the claim's grammar produces a constraint, but the source's
regex dot cannot cross the line terminator and the fragment is dropped. -/
theorem claim5_counterexample :
    parseStringRequirement ">1\n2" = [] ∧
      claimParseString ">1\n2" = [⟨.gt, "1\n2"⟩] :=
  ⟨by decide, by decide⟩

/-- C5 (amended): parseStringRequirement splits on commas, trims each
fragment, and returns, in order, one constraint per fragment matching an
operator token (longer tokens before their single-character prefixes)
followed by optional whitespace and a non-empty version remainder free of
line terminators; non-matching fragments are dropped silently and the empty
string yields the empty list. -/
theorem claim5_amended_grammar :
    (∀ s : String, parseStringRequirement s = amendedParseString s) ∧
      parseStringRequirement "" = [] ∧
      parseStringRequirement ">= 18.0.0, invalid, < 20.0.0" =
        [⟨.ge, "18.0.0"⟩, ⟨.lt, "20.0.0"⟩] := by
refine ⟨?_, by decide, by decide⟩
intro s
unfold parseStringRequirement amendedParseString
congr 1
funext part
exact fragMatch_scan_eq opAlternatives part

/-- C6: requirement normalization is semantically transparent — a string
requirement evaluates as the list of its parsed constraints, and a single
object requirement evaluates as its singleton list. -/
theorem claim6_normalization_transparent (v s : String) (c : Constraint) :
    satisfiesRequirement v (.text s) =
        satisfiesRequirement v (.listOf (parseStringRequirement s)) ∧
      satisfiesRequirement v (.single c) = satisfiesRequirement v (.listOf [c]) := by
refine ⟨text_eq_listOf v s, ?_⟩
cases hv : semverClean v with
| none => rw [satisfiesRequirement_invalid hv, satisfiesRequirement_invalid hv]
| some u =>
  cases hc : semverClean c.version with
  | none =>
    rw [satisfiesRequirement_single_invalid hv hc, satisfiesRequirement_listOf hv]
    simp only [evalArrayLoop_cons, hc]
    rfl
  | some w =>
    rw [satisfiesRequirement_single_valid hv hc, satisfiesRequirement_listOf hv]
    simp only [evalArrayLoop_cons, hc]
    by_cases hsat : semverSatisfies u c.operator w = true <;>
      simp [hsat, evalArrayLoop]

/-- C7: the four comparison operators decide satisfaction exactly by standard
semantic-version precedence, and the prerelease ordering example holds
through the full pipeline. -/
theorem claim7_comparison_operators_precedence :
    (∀ v w : Version, semverSatisfies v .gt w = true ↔ precLt w v) ∧
      (∀ v w : Version, semverSatisfies v .lt w = true ↔ precLt v w) ∧
      (∀ v w : Version, semverSatisfies v .ge w = true ↔ (v = w ∨ precLt w v)) ∧
      (∀ v w : Version, semverSatisfies v .le w = true ↔ (v = w ∨ precLt v w)) ∧
      (satisfiesRequirement "18.0.0-beta.1"
        (.listOf [⟨.ge, "18.0.0-alpha.1"⟩])).satisfies = true := by
refine ⟨?_, ?_, ?_, ?_, by decide⟩
· intro v w
  simp [semverSatisfies, ordBeq_iff, versionCmp_eq_gt]
· intro v w
  simp [semverSatisfies, ordBeq_iff, versionCmp_eq_lt]
· intro v w
  simp only [semverSatisfies, ordBne_iff]
  have htr : v.cmp w ≠ .lt ↔ (v.cmp w = .eq ∨ v.cmp w = .gt) := by
    cases v.cmp w <;> simp
  rw [htr, versionCmp_eq_eq, versionCmp_eq_gt]
· intro v w
  simp only [semverSatisfies, ordBne_iff]
  have htr : v.cmp w ≠ .gt ↔ (v.cmp w = .eq ∨ v.cmp w = .lt) := by
    cases v.cmp w <;> simp
  rw [htr, versionCmp_eq_eq, versionCmp_eq_lt]

/-- C8: for upgrades, a caret constraint is satisfied exactly when the
leftmost non-zero component of the constraint version is unchanged, and a
tilde constraint exactly when major and minor are unchanged; the claim's two
concrete examples hold through the full pipeline. -/
theorem claim8_caret_tilde_semantics :
    (∀ v w : Version, v.cmp w ≠ .lt →
        (semverSatisfies v .caret w = true ↔ leftmostSame w v = true)) ∧
      (∀ v w : Version, v.cmp w ≠ .lt →
        (semverSatisfies v .tilde w = true ↔ (v.major = w.major ∧ v.minor = w.minor))) ∧
      (satisfiesRequirement "18.5.2" (.listOf [⟨.caret, "18.0.0"⟩])).satisfies = true ∧
      (satisfiesRequirement "18.1.5" (.listOf [⟨.tilde, "18.1.0"⟩])).satisfies = true :=
  ⟨fun _ _ h => caret_iff_leftmost h, fun _ _ h => tilde_iff_patch_level h,
    by decide, by decide⟩

theorem claim8_witness :
    semverSatisfies ⟨18, 5, 2, []⟩ .caret ⟨18, 0, 0, []⟩ = true :=
  (claim8_caret_tilde_semantics.1 ⟨18, 5, 2, []⟩ ⟨18, 0, 0, []⟩ (by decide)).mpr (by decide)

/-- C9: with a valid current version, a requirement string in which no
fragment matches the operator grammar evaluates to the vacuously satisfied
result with both lists empty. -/
theorem claim9_unparseable_requirement_vacuous (v : String) (u : Version) (s : String)
    (hv : semverClean v = some u) (hs : parseStringRequirement s = []) :
    satisfiesRequirement v (.text s) = ⟨true, [], []⟩ := by
rw [satisfiesRequirement_text hv, hs]
rfl

theorem claim9_witness :
    satisfiesRequirement "1.2.3" (.text "18.0.0") = ⟨true, [], []⟩ :=
  claim9_unparseable_requirement_vacuous "1.2.3" ⟨1, 2, 3, []⟩ "18.0.0"
    (by decide) (by decide)

/-- C10: a partial dotted-numeric constraint version such as 22 or 1.2 fails
cleaning, so a constraint like the documented example's final fragment lands
in failedConstraints as its fixed diagnostic and forces satisfies to false —
the example requirement string is never fully satisfied. -/
theorem claim10_partial_version_unsatisfiable :
    semverClean "22" = none ∧ semverClean "1.2" = none ∧
      (∀ (v : String) (u : Version), semverClean v = some u →
        ∀ xs ys : List Constraint,
          (satisfiesRequirement v (.listOf (xs ++ ⟨.lt, "22"⟩ :: ys))).satisfies = false ∧
            "Invalid version format: <22" ∈
              (satisfiesRequirement v (.listOf (xs ++ ⟨.lt, "22"⟩ :: ys))).failedConstraints) ∧
      (∀ (v : String) (u : Version), semverClean v = some u →
        (satisfiesRequirement v (.text ">= 20.0.0, < 22")).satisfies = false) := by
refine ⟨by decide, by decide, ?_, ?_⟩
· intro v u hv xs ys
  exact lt22_forces_failure hv xs ys
· intro v u hv
  rw [text_eq_listOf]
  rw [show parseStringRequirement ">= 20.0.0, < 22" =
    [⟨.ge, "20.0.0"⟩] ++ ⟨.lt, "22"⟩ :: [] from by decide]
  exact (lt22_forces_failure hv [⟨.ge, "20.0.0"⟩] []).1

theorem claim10_witness :
    (satisfiesRequirement "21.0.0" (.text ">= 20.0.0, < 22")).satisfies = false :=
  claim10_partial_version_unsatisfiable.2.2.2 "21.0.0" ⟨21, 0, 0, []⟩ (by decide)

end Doctor
